import Mathlib

/-!
# Verification of the evaluation harness (`src/evaluate.py`)

A shallow embedding of the metric-resolution, latency-instrumentation,
model-configuration and result-materialization logic of the evaluation
harness, together with theorems settling the specified properties.

Python dictionaries are embedded as association lists over `String` keys
(`Row` for JSON-like records), with `dictInsert` mirroring Python's
assignment semantics (update in place, or append at the end) and `slookup`
mirroring key lookup.
-/

/-- A flat JSON-like value, the value type of dataset rows, target outputs
and result rows (the spec's rows are flat mappings, §3). -/
inductive JVal where
  | null : JVal
  | bool (b : Bool) : JVal
  | num (n : Int) : JVal
  | str (s : String) : JVal
  deriving DecidableEq

/-- A flat mapping of field name to value: the embedding of one Python dict /
JSON object (Dataset Row, Target Output or Result Row). -/
abbrev Row : Type := List (String × JVal)

/-- Key lookup in an association list (Python `d[k]` / `d.get(k)`). -/
def slookup (k : String) : List (String × α) → Option α
  | [] => none
  | (a, b) :: t => if a = k then some b else slookup k t

/-- Python dict assignment `d[k] = v`: if the key is present, its value is
updated in place (keeping its insertion position); otherwise the pair is
appended at the end. -/
def dictInsert (d : List (String × α)) (k : String) (v : α) : List (String × α) :=
  match d with
  | [] => [(k, v)]
  | (a, b) :: t => if a = k then (a, v) :: t else (a, b) :: dictInsert t k v

theorem slookup_dictInsert_self (d : List (String × α)) (k : String) (v : α) :
    slookup k (dictInsert d k v) = some v := by
  induction d with
  | nil => simp [dictInsert, slookup]
  | cons p t ih =>
    obtain ⟨a, b⟩ := p
    by_cases h : a = k
    · subst h
      simp [dictInsert, slookup]
    · simp [dictInsert, slookup, h, ih]

theorem slookup_dictInsert_ne (d : List (String × α)) (k k' : String) (v : α)
    (h : k' ≠ k) : slookup k' (dictInsert d k v) = slookup k' d := by
  have hk : ¬ k = k' := fun hk => h hk.symm
  induction d with
  | nil => simp [dictInsert, slookup, hk]
  | cons p t ih =>
    obtain ⟨a, b⟩ := p
    by_cases ha : a = k
    · subst ha
      simp [dictInsert, slookup, hk]
    · by_cases ha' : a = k'
      · subst ha'
        simp [dictInsert, slookup, ha]
      · simp [dictInsert, slookup, ha, ha', ih]

/-- If the key is fresh, Python dict assignment appends the pair. -/
theorem dictInsert_of_not_mem (d : List (String × α)) (k : String) (v : α)
    (h : k ∉ d.map Prod.fst) : dictInsert d k v = d ++ [(k, v)] := by
  induction d with
  | nil => simp [dictInsert]
  | cons p t ih =>
    obtain ⟨a, b⟩ := p
    simp only [List.map_cons, List.mem_cons, not_or] at h
    have hak : ¬ a = k := fun hak => h.1 hak.symm
    simp [dictInsert, hak, ih h.2]

/-! ## Latency instrumentation (`latency_wrapper`, lines 39–44)

The wall-clock measurement `time.time() - start_time` is embedded as the
parameter `latency`; the result of `completion_func(*args, **kwargs)` is the
parameter `result`. The Python expression `{"latency": latency, **result}`
builds a dict starting from the latency field and then inserts every field
of `result` in order, overriding on key collision. -/

/-- Embedding of `latency_wrapper`: returns `{"latency": latency, **result}`. -/
def latency_wrapper (latency : JVal) (result : Row) : Row :=
  result.foldl (fun acc p => dictInsert acc p.1 p.2) [("latency", latency)]

/-- Folding Python dict assignments of pairwise-fresh keys over a dict whose
keys are all distinct from them appends the pairs in order. -/
theorem foldl_dictInsert_append (l acc : List (String × α))
    (hnd : (l.map Prod.fst).Nodup)
    (hdisj : ∀ k ∈ l.map Prod.fst, k ∉ acc.map Prod.fst) :
    l.foldl (fun acc p => dictInsert acc p.1 p.2) acc = acc ++ l := by
  induction l generalizing acc with
  | nil => simp
  | cons p t ih =>
    obtain ⟨a, b⟩ := p
    simp only [List.map_cons, List.nodup_cons] at hnd
    have hfresh : a ∉ acc.map Prod.fst := hdisj a (by simp)
    have step : dictInsert acc a b = acc ++ [(a, b)] :=
      dictInsert_of_not_mem acc a b hfresh
    simp only [List.foldl_cons, step]
    rw [ih (acc ++ [(a, b)]) hnd.2]
    · simp
    · intro k hk
      simp only [List.map_append, List.mem_append, List.map_cons, List.map_nil,
        List.mem_singleton, not_or]
      exact ⟨hdisj k (by simp [hk]), by
        intro hka
        exact hnd.1 (hka ▸ hk)⟩

/-! ## Custom field evaluator (`CustomFieldEvaluator`, lines 47–61) -/

/-- Embedding of the `CustomFieldEvaluator` object: it only stores the
metric name it was constructed with. -/
structure CustomFieldEvaluator where
  metric_name : String
  deriving DecidableEq

/-- Embedding of `CustomFieldEvaluator.__call__(*, value, **kwargs)`:
returns `{self.metric_name: value}`, ignoring all extra keyword args. -/
def CustomFieldEvaluator.call (self : CustomFieldEvaluator) (value : JVal)
    (kwargs : List (String × JVal)) : Row :=
  [(self.metric_name, value)]

/-! ## Model configuration (`get_model_config`, lines 64–86)

The process environment is embedded as an association list of variables;
the AAD bearer token produced by `get_bearer_token_provider(...)()` is the
opaque parameter `aad_token`. -/

/-- Embedding of the `AzureOpenAIModelConfiguration` record as constructed
at lines 80–84 (`azure_endpoint` comes from `os.environ.get`, hence is
optional). -/
structure AzureOpenAIModelConfiguration where
  azure_endpoint : Option String
  api_key : String
  azure_deployment : String
  deriving DecidableEq

/-- A logging event emitted by the harness. -/
inductive LogEvent where
  | warning (msg : String) : LogEvent
  | info (msg : String) : LogEvent
  deriving DecidableEq

/-- The warning text at lines 68–70. -/
def keyAuthWarning : String :=
  "Using key-based authentification, instead we recommend using Azure AD authentification instead."

/-- The info text at line 73. -/
def aadAuthInfo : String := "Using Azure AD authentification [recommended]"

/-- Embedding of `get_model_config`: if `AZURE_OPENAI_KEY` is present in the
environment, a warning is logged and the key is used as `api_key`; otherwise
an AAD bearer token is acquired and used. -/
def get_model_config (env : List (String × String)) (aad_token : String)
    (evaluation_model : String) :
    AzureOpenAIModelConfiguration × List LogEvent :=
  match slookup "AZURE_OPENAI_KEY" env with
  | some key =>
    ({ azure_endpoint := slookup "AZURE_OPENAI_ENDPOINT" env
       api_key := key
       azure_deployment := evaluation_model }, [LogEvent.warning keyAuthWarning])
  | none =>
    ({ azure_endpoint := slookup "AZURE_OPENAI_ENDPOINT" env
       api_key := aad_token
       azure_deployment := evaluation_model }, [LogEvent.info aadAuthInfo])

/-! ## Metric resolution (`run_evaluation`, lines 89–170)

The completion callable is embedded as an opaque term that records how many
times it has been wrapped by `partial(latency_wrapper, ...)`; the evaluator
objects constructed from the external promptflow library are embedded as
tagged values recording which constructor was invoked and with which model
configuration. The external `evaluate(...)` call at lines 164–170 is
embedded by the argument record `EvaluateCall` it receives; an exception
raised during the resolution loop is an `Except.error`, in which case no
`EvaluateCall` exists (the external call is never made and the target is
never invoked). -/

/-- The completion callable reference held by `run_evaluation`:
`latencyWrapped f` is `partial(latency_wrapper, f)` (line 152). -/
inductive TargetFunc where
  | base : TargetFunc
  | latencyWrapped (f : TargetFunc) : TargetFunc
  deriving DecidableEq

/-- An evaluator object stored into the `evaluators` dict (each external
promptflow evaluator is constructed with the model configuration). -/
inductive Evaluator where
  | coherence (cfg : AzureOpenAIModelConfiguration)
  | f1score (cfg : AzureOpenAIModelConfiguration)
  | fluency (cfg : AzureOpenAIModelConfiguration)
  | groundedness (cfg : AzureOpenAIModelConfiguration)
  | relevance (cfg : AzureOpenAIModelConfiguration)
  | similarity (cfg : AzureOpenAIModelConfiguration)
  | qa (cfg : AzureOpenAIModelConfiguration)
  | customField (e : CustomFieldEvaluator)
  deriving DecidableEq

/-- The mutable state of the resolution loop at lines 99–158: the (possibly
rewrapped) completion callable and the two dicts being filled. -/
structure ResolveState where
  completion_func : TargetFunc
  evaluators : List (String × Evaluator)
  evaluators_config : List (String × List (String × String))
  deriving DecidableEq

/-- One iteration of the `for metric_name in metrics` loop (lines 101–158),
transcribed branch by branch from the `if`/`elif` chain; the `else` branch
raises `ValueError(f"Unknown metric: {metric_name}")`. -/
def resolveStep (cfg : AzureOpenAIModelConfiguration) (st : ResolveState)
    (metric_name : String) : Except String ResolveState :=
  if metric_name = "coherence" then
    .ok { st with
      evaluators := dictInsert st.evaluators metric_name (.coherence cfg)
      evaluators_config := dictInsert st.evaluators_config metric_name
        [("question", "$\x7bdata.chat_input\x7d"),
         ("answer", "$\x7btarget.reply\x7d")] }
  else if metric_name = "f1score" then
    .ok { st with
      evaluators := dictInsert st.evaluators metric_name (.f1score cfg)
      evaluators_config := dictInsert st.evaluators_config metric_name
        [("answer", "$\x7btarget.reply\x7d"),
         ("ground_truth", "$\x7bdata.ground_truth\x7d")] }
  else if metric_name = "fluency" then
    .ok { st with
      evaluators := dictInsert st.evaluators metric_name (.fluency cfg)
      evaluators_config := dictInsert st.evaluators_config metric_name
        [("question", "$\x7bdata.chat_input\x7d"),
         ("answer", "$\x7btarget.reply\x7d")] }
  else if metric_name = "groundedness" then
    .ok { st with
      evaluators := dictInsert st.evaluators metric_name (.groundedness cfg)
      evaluators_config := dictInsert st.evaluators_config metric_name
        [("answer", "$\x7btarget.reply\x7d"),
         ("context", "$\x7btarget.context\x7d")] }
  else if metric_name = "relevance" then
    .ok { st with
      evaluators := dictInsert st.evaluators metric_name (.relevance cfg)
      evaluators_config := dictInsert st.evaluators_config metric_name
        [("question", "$\x7bdata.chat_input\x7d"),
         ("answer", "$\x7btarget.reply\x7d"),
         ("context", "$\x7btarget.context\x7d")] }
  else if metric_name = "similarity" then
    .ok { st with
      evaluators := dictInsert st.evaluators metric_name (.similarity cfg)
      evaluators_config := dictInsert st.evaluators_config metric_name
        [("question", "$\x7bdata.chat_input\x7d"),
         ("answer", "$\x7btarget.reply\x7d"),
         ("ground_truth", "$\x7bdata.ground_truth\x7d")] }
  else if metric_name = "qa" then
    .ok { st with
      evaluators := dictInsert st.evaluators metric_name (.qa cfg)
      evaluators_config := dictInsert st.evaluators_config metric_name
        [("question", "$\x7bdata.chat_input\x7d"),
         ("answer", "$\x7btarget.reply\x7d"),
         ("context", "$\x7btarget.context\x7d"),
         ("ground_truth", "$\x7bdata.ground_truth\x7d")] }
  else if metric_name = "latency" then
    .ok { completion_func := .latencyWrapped st.completion_func
          evaluators := dictInsert st.evaluators metric_name
            (.customField ⟨"latency"⟩)
          evaluators_config := dictInsert st.evaluators_config metric_name
            [("latency", "$\x7btarget.latency\x7d")] }
  else
    .error ("Unknown metric: " ++ metric_name)

/-- The whole `for metric_name in metrics` loop. -/
def resolveMetrics (cfg : AzureOpenAIModelConfiguration) :
    List String → ResolveState → Except String ResolveState
  | [], st => .ok st
  | m :: ms, st =>
    match resolveStep cfg st m with
    | .error e => .error e
    | .ok st1 => resolveMetrics cfg ms st1

/-- The argument record of the external `evaluate(...)` call (lines 164–170). -/
structure EvaluateCall where
  target : TargetFunc
  evaluation_name : String
  evaluators : List (String × Evaluator)
  evaluator_config : List (String × List (String × String))
  data : String
  deriving DecidableEq

/-- Embedding of `run_evaluation` up to the `evaluate(...)` call: resolves
the requested metrics and, when no `ValueError` is raised, returns the
argument record handed to the external evaluation capability. -/
def run_evaluation_resolve (completion_func : TargetFunc)
    (evaluation_name : String)
    (evaluation_model_config : AzureOpenAIModelConfiguration)
    (evaluation_data_path : String) (metrics : List String) :
    Except String EvaluateCall :=
  match resolveMetrics evaluation_model_config metrics
      ⟨completion_func, [], []⟩ with
  | .error e => .error e
  | .ok st =>
    .ok { target := st.completion_func
          evaluation_name := evaluation_name
          evaluators := st.evaluators
          evaluator_config := st.evaluators_config
          data := evaluation_data_path }

/-- The metric names registered in the resolution chain (spec §4.2's closed
set). -/
def registeredMetricNames : List String :=
  ["coherence", "f1score", "fluency", "groundedness", "relevance",
   "similarity", "qa", "latency"]

/-- The `choices` list of the `--metrics` CLI argument (lines 204–214),
which additionally accepts `"chat"`. -/
def metricsChoices : List String :=
  ["coherence", "f1score", "fluency", "groundedness", "relevance",
   "similarity", "qa", "chat", "latency"]

/-- The evaluator object that the resolution loop registers for each
registered metric name. -/
def evaluatorOf (cfg : AzureOpenAIModelConfiguration) :
    String → Evaluator
  | "coherence" => .coherence cfg
  | "f1score" => .f1score cfg
  | "fluency" => .fluency cfg
  | "groundedness" => .groundedness cfg
  | "relevance" => .relevance cfg
  | "similarity" => .similarity cfg
  | "qa" => .qa cfg
  | _ => .customField ⟨"latency"⟩

/-- The binding table that the resolution loop registers for each registered
metric name. -/
def evaluatorConfigOf : String → List (String × String)
  | "coherence" =>
    [("question", "$\x7bdata.chat_input\x7d"),
     ("answer", "$\x7btarget.reply\x7d")]
  | "f1score" =>
    [("answer", "$\x7btarget.reply\x7d"),
     ("ground_truth", "$\x7bdata.ground_truth\x7d")]
  | "fluency" =>
    [("question", "$\x7bdata.chat_input\x7d"),
     ("answer", "$\x7btarget.reply\x7d")]
  | "groundedness" =>
    [("answer", "$\x7btarget.reply\x7d"),
     ("context", "$\x7btarget.context\x7d")]
  | "relevance" =>
    [("question", "$\x7bdata.chat_input\x7d"),
     ("answer", "$\x7btarget.reply\x7d"),
     ("context", "$\x7btarget.context\x7d")]
  | "similarity" =>
    [("question", "$\x7bdata.chat_input\x7d"),
     ("answer", "$\x7btarget.reply\x7d"),
     ("ground_truth", "$\x7bdata.ground_truth\x7d")]
  | "qa" =>
    [("question", "$\x7bdata.chat_input\x7d"),
     ("answer", "$\x7btarget.reply\x7d"),
     ("context", "$\x7btarget.context\x7d"),
     ("ground_truth", "$\x7bdata.ground_truth\x7d")]
  | _ => [("latency", "$\x7btarget.latency\x7d")]

/-- Characterization of a successful loop iteration: the metric name is one
of the registered ones, both dicts receive the fixed entry for that name,
and the completion callable is rewrapped exactly when the name is
`"latency"`. -/
theorem resolveStep_ok (cfg : AzureOpenAIModelConfiguration)
    (st st' : ResolveState) (x : String)
    (h : resolveStep cfg st x = .ok st') :
    x ∈ registeredMetricNames ∧
    st'.evaluators = dictInsert st.evaluators x (evaluatorOf cfg x) ∧
    st'.evaluators_config =
      dictInsert st.evaluators_config x (evaluatorConfigOf x) ∧
    st'.completion_func =
      (if x = "latency" then .latencyWrapped st.completion_func
       else st.completion_func) := by
  by_cases h1 : x = "coherence"
  · subst h1
    simp only [resolveStep, String.reduceEq, reduceIte, Except.ok.injEq] at h
    subst h
    exact ⟨by decide, rfl, rfl, by simp⟩
  by_cases h2 : x = "f1score"
  · subst h2
    simp only [resolveStep, String.reduceEq, reduceIte, Except.ok.injEq] at h
    subst h
    exact ⟨by decide, rfl, rfl, by simp⟩
  by_cases h3 : x = "fluency"
  · subst h3
    simp only [resolveStep, String.reduceEq, reduceIte, Except.ok.injEq] at h
    subst h
    exact ⟨by decide, rfl, rfl, by simp⟩
  by_cases h4 : x = "groundedness"
  · subst h4
    simp only [resolveStep, String.reduceEq, reduceIte, Except.ok.injEq] at h
    subst h
    exact ⟨by decide, rfl, rfl, by simp⟩
  by_cases h5 : x = "relevance"
  · subst h5
    simp only [resolveStep, String.reduceEq, reduceIte, Except.ok.injEq] at h
    subst h
    exact ⟨by decide, rfl, rfl, by simp⟩
  by_cases h6 : x = "similarity"
  · subst h6
    simp only [resolveStep, String.reduceEq, reduceIte, Except.ok.injEq] at h
    subst h
    exact ⟨by decide, rfl, rfl, by simp⟩
  by_cases h7 : x = "qa"
  · subst h7
    simp only [resolveStep, String.reduceEq, reduceIte, Except.ok.injEq] at h
    subst h
    exact ⟨by decide, rfl, rfl, by simp⟩
  by_cases h8 : x = "latency"
  · subst h8
    simp only [resolveStep, String.reduceEq, reduceIte, Except.ok.injEq] at h
    subst h
    exact ⟨by decide, rfl, rfl, by simp⟩
  simp only [resolveStep, h1, h2, h3, h4, h5, h6, h7, h8, if_false, reduceIte] at h
  exact Except.noConfusion h

/-- `n`-fold wrapping of the completion callable with
`partial(latency_wrapper, ...)`. -/
def wrapN : Nat → TargetFunc → TargetFunc
  | 0, f => f
  | n + 1, f => .latencyWrapped (wrapN n f)

theorem wrapN_latencyWrapped (n : Nat) (f : TargetFunc) :
    wrapN n (.latencyWrapped f) = wrapN (n + 1) f := by
  induction n with
  | zero => rfl
  | succ n ih => simp [wrapN, ih]

/-- A successful resolution loop only ever saw registered metric names. -/
theorem resolveMetrics_ok_registered (cfg : AzureOpenAIModelConfiguration)
    (ms : List String) (st st' : ResolveState)
    (h : resolveMetrics cfg ms st = .ok st') :
    ∀ m ∈ ms, m ∈ registeredMetricNames := by
  induction ms generalizing st with
  | nil => intro m hm; exact absurd hm (List.not_mem_nil m)
  | cons x t ih =>
    intro m hm
    simp only [resolveMetrics] at h
    cases hstep : resolveStep cfg st x with
    | error e => rw [hstep] at h; exact Except.noConfusion h
    | ok st1 =>
      rw [hstep] at h
      rcases List.mem_cons.mp hm with rfl | hmt
      · exact (resolveStep_ok cfg st st1 m hstep).1
      · exact ih st1 h m hmt

/-- After a successful resolution loop, every registered requested metric
name is bound in `evaluators_config` to its fixed binding table. -/
theorem resolveMetrics_config_lookup (cfg : AzureOpenAIModelConfiguration)
    (ms : List String) (st st' : ResolveState)
    (h : resolveMetrics cfg ms st = .ok st') (m : String)
    (hm : m ∈ ms ∨
      slookup m st.evaluators_config = some (evaluatorConfigOf m)) :
    slookup m st'.evaluators_config = some (evaluatorConfigOf m) := by
  induction ms generalizing st with
  | nil =>
    simp only [resolveMetrics, Except.ok.injEq] at h
    subst h
    rcases hm with hm | hm
    · exact absurd hm (List.not_mem_nil m)
    · exact hm
  | cons x t ih =>
    simp only [resolveMetrics] at h
    cases hstep : resolveStep cfg st x with
    | error e => rw [hstep] at h; exact Except.noConfusion h
    | ok st1 =>
      rw [hstep] at h
      obtain ⟨_, _, hcfg, _⟩ := resolveStep_ok cfg st st1 x hstep
      by_cases hmx : m = x
      · subst hmx
        refine ih st1 h (Or.inr ?_)
        rw [hcfg, slookup_dictInsert_self]
      · rcases hm with hm | hm
        · rcases List.mem_cons.mp hm with rfl | hmt
          · exact absurd rfl hmx
          · exact ih st1 h (Or.inl hmt)
        · refine ih st1 h (Or.inr ?_)
          rw [hcfg, slookup_dictInsert_ne _ _ _ _ hmx, hm]

/-- After a successful resolution loop, every registered requested metric
name is bound in `evaluators` to its fixed evaluator object. -/
theorem resolveMetrics_evaluators_lookup (cfg : AzureOpenAIModelConfiguration)
    (ms : List String) (st st' : ResolveState)
    (h : resolveMetrics cfg ms st = .ok st') (m : String)
    (hm : m ∈ ms ∨ slookup m st.evaluators = some (evaluatorOf cfg m)) :
    slookup m st'.evaluators = some (evaluatorOf cfg m) := by
  induction ms generalizing st with
  | nil =>
    simp only [resolveMetrics, Except.ok.injEq] at h
    subst h
    rcases hm with hm | hm
    · exact absurd hm (List.not_mem_nil m)
    · exact hm
  | cons x t ih =>
    simp only [resolveMetrics] at h
    cases hstep : resolveStep cfg st x with
    | error e => rw [hstep] at h; exact Except.noConfusion h
    | ok st1 =>
      rw [hstep] at h
      obtain ⟨_, hev, _, _⟩ := resolveStep_ok cfg st st1 x hstep
      by_cases hmx : m = x
      · subst hmx
        refine ih st1 h (Or.inr ?_)
        rw [hev, slookup_dictInsert_self]
      · rcases hm with hm | hm
        · rcases List.mem_cons.mp hm with rfl | hmt
          · exact absurd rfl hmx
          · exact ih st1 h (Or.inl hmt)
        · refine ih st1 h (Or.inr ?_)
          rw [hev, slookup_dictInsert_ne _ _ _ _ hmx, hm]

/-- A successful resolution loop wraps the completion callable once per
occurrence of `"latency"` in the requested metrics. -/
theorem resolveMetrics_completion (cfg : AzureOpenAIModelConfiguration)
    (ms : List String) (st st' : ResolveState)
    (h : resolveMetrics cfg ms st = .ok st') :
    st'.completion_func = wrapN (ms.count "latency") st.completion_func := by
  induction ms generalizing st with
  | nil =>
    simp only [resolveMetrics, Except.ok.injEq] at h
    subst h
    rfl
  | cons x t ih =>
    simp only [resolveMetrics] at h
    cases hstep : resolveStep cfg st x with
    | error e => rw [hstep] at h; exact Except.noConfusion h
    | ok st1 =>
      rw [hstep] at h
      obtain ⟨_, _, _, hcf⟩ := resolveStep_ok cfg st st1 x hstep
      by_cases hx : x = "latency"
      · subst hx
        rw [ih st1 h, if_pos rfl] at *
        rw [hcf, wrapN_latencyWrapped]
        have : (("latency" :: t).count "latency") = t.count "latency" + 1 := by
          simp [List.count_cons]
        rw [this]
      · rw [ih st1 h, hcf, if_neg hx]
        have : ((x :: t).count "latency") = t.count "latency" := by
          simp [List.count_cons, hx]
        rw [this]

/-! ## Spec-side registry (refinement definitions)

The following definitions transcribe the words of spec §4.2, to be compared
with the tables resolved by the code. -/

/-- A binding source reference as the spec words it: a field of the static
dataset row or a field of the target's output record. -/
inductive SpecRef where
  | data (field : String) : SpecRef
  | target (field : String) : SpecRef
  deriving DecidableEq

/-- Modelled from the spec: the binding table of spec §4.2, one row per
registered metric name (`question←data.chat_input`, ...). -/
def specBindingTable : String → List (String × SpecRef)
  | "coherence" => [("question", .data "chat_input"), ("answer", .target "reply")]
  | "fluency" => [("question", .data "chat_input"), ("answer", .target "reply")]
  | "f1score" => [("answer", .target "reply"), ("ground_truth", .data "ground_truth")]
  | "groundedness" => [("answer", .target "reply"), ("context", .target "context")]
  | "relevance" =>
    [("question", .data "chat_input"), ("answer", .target "reply"),
     ("context", .target "context")]
  | "similarity" =>
    [("question", .data "chat_input"), ("answer", .target "reply"),
     ("ground_truth", .data "ground_truth")]
  | "qa" =>
    [("question", .data "chat_input"), ("answer", .target "reply"),
     ("context", .target "context"), ("ground_truth", .data "ground_truth")]
  | "latency" => [("latency", .target "latency")]
  | _ => []

/-- Rendering of a spec source reference in the concrete binding syntax used
by the code (`${data.<field>}` / `${target.<field>}`). -/
def SpecRef.render : SpecRef → String
  | .data field => "$\x7bdata." ++ field ++ "\x7d"
  | .target field => "$\x7btarget." ++ field ++ "\x7d"

/-- Modelled from the spec: the set of named arguments each metric's
evaluator requires (the external promptflow evaluators live outside this
repository; the spec's §4.2 table fixes their required argument sets). -/
def requiredArgs : String → List String
  | "coherence" => ["question", "answer"]
  | "fluency" => ["question", "answer"]
  | "f1score" => ["answer", "ground_truth"]
  | "groundedness" => ["answer", "context"]
  | "relevance" => ["question", "answer", "context"]
  | "similarity" => ["question", "answer", "ground_truth"]
  | "qa" => ["question", "answer", "context", "ground_truth"]
  | "latency" => ["latency"]
  | _ => []

/-- Each registered metric's resolved binding table is the rendering of the
spec §4.2 table, and its key list is exactly the evaluator's required
argument list. -/
theorem evaluatorConfigOf_matches_spec (m : String)
    (hm : m ∈ registeredMetricNames) :
    evaluatorConfigOf m =
      (specBindingTable m).map (fun p => (p.1, p.2.render)) ∧
    (evaluatorConfigOf m).map Prod.fst = requiredArgs m ∧
    ((evaluatorConfigOf m).map Prod.fst).Nodup := by
  simp only [registeredMetricNames, List.mem_cons, List.not_mem_nil,
    or_false] at hm
  rcases hm with rfl | rfl | rfl | rfl | rfl | rfl | rfl | rfl <;> decide

/-! ## Line-delimited JSON record format (result materialization)

Modelled from the spec (§4.4): the Result Materializer serializes the
row collection to a line-delimited record format, one JSON object per row
(the concrete writer, `pandas.DataFrame.to_json(..., orient="records",
lines=True)`, lives outside this repository). The format is embedded at the
character level: a printer for flat JSON objects and a recursive-descent
parser, proved inverse to each other. -/

/-- JSON string escaping for the characters that would break the framing
(`"`,`\` and the control characters `\n`, `\r`, `\t`). -/
def escapeChar (c : Char) : List Char :=
  if c = '"' then ['\\', '"']
  else if c = '\\' then ['\\', '\\']
  else if c = '\n' then ['\\', 'n']
  else if c = '\r' then ['\\', 'r']
  else if c = '\t' then ['\\', 't']
  else [c]

/-- Escape a whole string body. -/
def escapeStr (s : List Char) : List Char := s.flatMap escapeChar

/-- The decimal digits of a natural number (fuel-based so that it reduces
definitionally; `toDigits n` calls it with sufficient fuel). -/
def toDigitsAux : Nat → Nat → List Char
  | 0, _ => []
  | fuel + 1, n =>
    if n < 10 then [Nat.digitChar n]
    else toDigitsAux fuel (n / 10) ++ [Nat.digitChar (n % 10)]

/-- The decimal digits of a natural number, most significant first. -/
def toDigits (n : Nat) : List Char := toDigitsAux (n + 1) n

/-- The decimal rendering of an integer. -/
def intToChars (n : Int) : List Char :=
  if n < 0 then '-' :: toDigits n.natAbs else toDigits n.toNat

/-- Print one JSON value. -/
def printVal : JVal → List Char
  | .null => "null".data
  | .bool true => "true".data
  | .bool false => "false".data
  | .num n => intToChars n
  | .str s => '"' :: (escapeStr s.data ++ ['"'])

/-- Print one `"key":value` member. -/
def printPair (p : String × JVal) : List Char :=
  '"' :: (escapeStr p.1.data ++ '"' :: ':' :: printVal p.2)

/-- Print the comma-separated members of an object. -/
def printMembers : Row → List Char
  | [] => []
  | [p] => printPair p
  | p :: q :: ps => printPair p ++ ',' :: printMembers (q :: ps)

/-- Print one row as one JSON object. -/
def printRow (r : Row) : List Char := '{' :: (printMembers r ++ ['}'])

/-- The line-delimited serialization of a row collection: one JSON object
per row, in order, with no leading or trailing framing. -/
def to_json_lines (rows : List Row) : List (List Char) := rows.map printRow

/-- Unescape one escaped character. -/
def unescapeChar (c : Char) : Option Char :=
  if c = '"' then some '"'
  else if c = '\\' then some '\\'
  else if c = 'n' then some '\n'
  else if c = 'r' then some '\r'
  else if c = 't' then some '\t'
  else none

/-- Parse a string body up to the closing quote, returning the unescaped
body and the remaining input. -/
def parseStrBody : List Char → Option (List Char × List Char)
  | [] => none
  | c :: rest =>
    if c = '"' then some ([], rest)
    else if c = '\\' then
      match rest with
      | [] => none
      | e :: rest2 =>
        match unescapeChar e with
        | none => none
        | some u =>
          match parseStrBody rest2 with
          | none => none
          | some (s, r) => some (u :: s, r)
    else
      match parseStrBody rest with
      | none => none
      | some (s, r) => some (c :: s, r)

/-- Split a maximal run of decimal digits off the front of the input. -/
def digitSpan : List Char → (List Char × List Char)
  | [] => ([], [])
  | c :: rest =>
    if c.isDigit then
      let (ds, r) := digitSpan rest
      (c :: ds, r)
    else ([], c :: rest)

/-- The value of a list of decimal digits, most significant first. -/
def digitsToNat (ds : List Char) : Nat :=
  ds.foldl (fun a c => 10 * a + (c.toNat - 48)) 0

/-- Consume an expected literal off the front of the input. -/
def dropLit : List Char → List Char → Option (List Char)
  | [], cs => some cs
  | l :: lt, c :: ct => if c = l then dropLit lt ct else none
  | _ :: _, [] => none

/-- Parse one JSON value (of the flat value forms used in result rows). -/
def parseVal (cs : List Char) : Option (JVal × List Char) :=
  match cs with
  | [] => none
  | c :: rest =>
    if c = '"' then
      match parseStrBody rest with
      | none => none
      | some (s, r) => some (.str (String.mk s), r)
    else if c = 'n' then
      match dropLit "ull".data rest with
      | some r => some (.null, r)
      | none => none
    else if c = 't' then
      match dropLit "rue".data rest with
      | some r => some (.bool true, r)
      | none => none
    else if c = 'f' then
      match dropLit "alse".data rest with
      | some r => some (.bool false, r)
      | none => none
    else if c = '-' then
      let (ds, r) := digitSpan rest
      if ds.isEmpty then none
      else some (.num (-(digitsToNat ds : Int)), r)
    else
      let (ds, r) := digitSpan (c :: rest)
      if ds.isEmpty then none
      else some (.num ((digitsToNat ds : Int)), r)

/-- Parse the members of a non-empty object, fuel-bounded by the number of
members still expected. -/
def parseMembers : Nat → List Char → Option (Row × List Char)
  | 0, _ => none
  | fuel + 1, cs =>
    match cs with
    | '"' :: rest =>
      match parseStrBody rest with
      | none => none
      | some (k, r1) =>
        match r1 with
        | ':' :: r2 =>
          match parseVal r2 with
          | none => none
          | some (v, r3) =>
            match r3 with
            | ',' :: r4 =>
              match parseMembers fuel r4 with
              | none => none
              | some (ps, r5) => some ((String.mk k, v) :: ps, r5)
            | '}' :: r4 => some ([(String.mk k, v)], r4)
            | _ => none
        | _ => none
    | _ => none

/-- Parse one JSON object, returning the row and the remaining input. -/
def parseObj (cs : List Char) : Option (Row × List Char) :=
  match cs with
  | '{' :: rest =>
    match rest with
    | '}' :: rest2 => some (([] : Row), rest2)
    | _ => parseMembers rest.length rest
  | _ => none

/-- Parse one full line as one JSON object (nothing may remain). -/
def parseRow (cs : List Char) : Option Row :=
  match parseObj cs with
  | some (r, []) => some r
  | _ => none

/-- Parse a whole line-delimited serialization back into rows, line by
line. -/
def parseLines : List (List Char) → Option (List Row)
  | [] => some []
  | l :: ls =>
    match parseRow l with
    | none => none
    | some r =>
      match parseLines ls with
      | none => none
      | some rs => some (r :: rs)

theorem string_mk_data (s : String) : String.mk s.data = s := rfl

theorem parseStrBody_quote (rest : List Char) :
    parseStrBody ('"' :: rest) = some ([], rest) := by
  rw [parseStrBody.eq_def]
  simp

theorem parseStrBody_backslash (e : Char) (rest : List Char) :
    parseStrBody ('\\' :: e :: rest) =
      match unescapeChar e with
      | none => none
      | some u =>
        match parseStrBody rest with
        | none => none
        | some (s, r) => some (u :: s, r) := by
  rw [parseStrBody.eq_def]
  simp

theorem parseStrBody_other (c : Char) (rest : List Char)
    (h1 : ¬ c = '"') (h2 : ¬ c = '\\') :
    parseStrBody (c :: rest) =
      match parseStrBody rest with
      | none => none
      | some (s, r) => some (c :: s, r) := by
  rw [parseStrBody.eq_def]
  simp [h1, h2]

theorem escapeStr_nil : escapeStr [] = [] := rfl

theorem escapeStr_cons (c : Char) (t : List Char) :
    escapeStr (c :: t) = escapeChar c ++ escapeStr t := by
  simp [escapeStr]

/-- Parsing a string body inverts escaping, leaving the suffix after the
closing quote untouched. -/
theorem parseStrBody_escape (s : List Char) (rest : List Char) :
    parseStrBody (escapeStr s ++ '"' :: rest) = some (s, rest) := by
  induction s with
  | nil => rw [escapeStr_nil, List.nil_append, parseStrBody_quote]
  | cons c t ih =>
    rw [escapeStr_cons]
    by_cases h1 : c = '"'
    · subst h1
      simp [escapeChar, List.cons_append, parseStrBody_backslash,
        unescapeChar, ih]
    by_cases h2 : c = '\\'
    · subst h2
      simp [escapeChar, List.cons_append, parseStrBody_backslash,
        unescapeChar, ih]
    by_cases h3 : c = '\n'
    · subst h3
      simp [escapeChar, List.cons_append, parseStrBody_backslash,
        unescapeChar, ih]
    by_cases h4 : c = '\r'
    · subst h4
      simp [escapeChar, List.cons_append, parseStrBody_backslash,
        unescapeChar, ih]
    by_cases h5 : c = '\t'
    · subst h5
      simp [escapeChar, List.cons_append, parseStrBody_backslash,
        unescapeChar, ih]
    have he : escapeChar c = [c] := by
      simp [escapeChar, h1, h2, h3, h4, h5]
    rw [he, List.singleton_append, List.cons_append,
      parseStrBody_other c _ h1 h2, ih]

theorem digitChar_isDigit (n : Nat) (h : n < 10) :
    (Nat.digitChar n).isDigit = true := by
  interval_cases n <;> decide

theorem digitChar_val (n : Nat) (h : n < 10) :
    (Nat.digitChar n).toNat - 48 = n := by
  interval_cases n <;> decide

theorem toDigitsAux_isDigit (fuel : Nat) :
    ∀ n, n < fuel → ∀ c ∈ toDigitsAux fuel n, c.isDigit = true := by
  induction fuel with
  | zero => intro n h; omega
  | succ f ih =>
    intro n h c hc
    by_cases h10 : n < 10
    · simp only [toDigitsAux, if_pos h10, List.mem_singleton] at hc
      subst hc
      exact digitChar_isDigit n h10
    · simp only [toDigitsAux, if_neg h10, List.mem_append,
        List.mem_singleton] at hc
      rcases hc with hc | hc
      · have hdiv : n / 10 < f := by
          have := Nat.div_lt_self (show 0 < n by omega) (show 1 < 10 by omega)
          omega
        exact ih (n / 10) hdiv c hc
      · subst hc
        exact digitChar_isDigit _ (Nat.mod_lt n (by omega))

theorem toDigitsAux_ne_nil (fuel n : Nat) (h : n < fuel) :
    toDigitsAux fuel n ≠ [] := by
  cases fuel with
  | zero => omega
  | succ f =>
    by_cases h10 : n < 10
    · simp [toDigitsAux, if_pos h10]
    · simp [toDigitsAux, if_neg h10]

theorem digitsToNat_append_single (xs : List Char) (c : Char) :
    digitsToNat (xs ++ [c]) = 10 * digitsToNat xs + (c.toNat - 48) := by
  simp [digitsToNat, List.foldl_append]

theorem digitsToNat_toDigitsAux (fuel : Nat) :
    ∀ n, n < fuel → digitsToNat (toDigitsAux fuel n) = n := by
  induction fuel with
  | zero => intro n h; omega
  | succ f ih =>
    intro n h
    by_cases h10 : n < 10
    · simp only [toDigitsAux, if_pos h10]
      have := digitChar_val n h10
      simp [digitsToNat, this]
    · have hdiv : n / 10 < f := by
        have := Nat.div_lt_self (show 0 < n by omega) (show 1 < 10 by omega)
        omega
      simp only [toDigitsAux, if_neg h10, digitsToNat_append_single,
        ih (n / 10) hdiv, digitChar_val (n % 10) (Nat.mod_lt n (by omega))]
      omega

theorem toDigits_isDigit (n : Nat) : ∀ c ∈ toDigits n, c.isDigit = true :=
  toDigitsAux_isDigit (n + 1) n (by omega)

theorem toDigits_ne_nil (n : Nat) : toDigits n ≠ [] :=
  toDigitsAux_ne_nil (n + 1) n (by omega)

theorem digitsToNat_toDigits (n : Nat) : digitsToNat (toDigits n) = n :=
  digitsToNat_toDigitsAux (n + 1) n (by omega)

/-- True when the input does not start with a decimal digit (so that a
preceding number token cannot absorb it). -/
def headNotDigit : List Char → Bool
  | c :: _ => !c.isDigit
  | [] => true

theorem digitSpan_append (digs tl : List Char)
    (hds : ∀ c ∈ digs, c.isDigit = true) (htl : headNotDigit tl = true) :
    digitSpan (digs ++ tl) = (digs, tl) := by
  induction digs with
  | nil =>
    cases tl with
    | nil => rfl
    | cons c r =>
      simp only [headNotDigit, Bool.not_eq_true'] at htl
      simp [digitSpan, htl]
  | cons c t ih =>
    have hc : c.isDigit = true := hds c (by simp)
    have ht : ∀ x ∈ t, x.isDigit = true := fun x hx => hds x (by simp [hx])
    simp [digitSpan, hc, ih ht]

theorem char_isDigit_ne (c : Char) (hd : c.isDigit = true) :
    ¬ c = '"' ∧ ¬ c = 'n' ∧ ¬ c = 't' ∧ ¬ c = 'f' ∧ ¬ c = '-' := by
  have hgen : ∀ x : Char, x.isDigit = false → ¬ c = x := by
    intro x hx hcx
    rw [hcx, hx] at hd
    exact Bool.false_ne_true hd
  exact ⟨hgen _ (by decide), hgen _ (by decide), hgen _ (by decide),
    hgen _ (by decide), hgen _ (by decide)⟩

/-- Parsing a printed value consumes exactly the printed characters,
provided what follows does not begin with a digit. -/
theorem parseVal_printVal (v : JVal) (rest : List Char)
    (hrest : headNotDigit rest = true) :
    parseVal (printVal v ++ rest) = some (v, rest) := by
  cases v with
  | null => simp [printVal, parseVal, dropLit]
  | bool b => cases b <;> simp [printVal, parseVal, dropLit]
  | str s =>
    have : printVal (.str s) ++ rest =
        '"' :: (escapeStr s.data ++ '"' :: rest) := by
      simp [printVal]
    rw [this]
    simp [parseVal, parseStrBody_escape, string_mk_data]
  | num n =>
    by_cases hn : n < 0
    · obtain ⟨c0, t0, hds⟩ :=
        List.exists_cons_of_ne_nil (toDigits_ne_nil n.natAbs)
      have : printVal (.num n) ++ rest = '-' :: (toDigits n.natAbs ++ rest) := by
        simp [printVal, intToChars, if_pos hn]
      rw [this]
      have htake : digitSpan (toDigits n.natAbs ++ rest) =
          (toDigits n.natAbs, rest) :=
        digitSpan_append _ _ (toDigits_isDigit _) hrest
      simp only [parseVal, Char.reduceEq, reduceIte, htake]
      rw [hds]
      simp only [List.isEmpty_cons, Bool.false_eq_true, if_false]
      rw [← hds, digitsToNat_toDigits]
      have : (-(n.natAbs : Int)) = n := by omega
      rw [this]
    · obtain ⟨c0, t0, hds⟩ :=
        List.exists_cons_of_ne_nil (toDigits_ne_nil n.toNat)
      have hstream : printVal (.num n) ++ rest = c0 :: (t0 ++ rest) := by
        simp [printVal, intToChars, if_neg hn, hds]
      have hd : c0.isDigit = true :=
        toDigits_isDigit n.toNat c0 (by rw [hds]; exact List.mem_cons_self c0 t0)
      obtain ⟨hq, hnn, htt, hff, hmm⟩ := char_isDigit_ne c0 hd
      rw [hstream]
      simp only [parseVal, hq, hnn, htt, hff, hmm, if_false]
      rw [← List.cons_append, ← hds]
      have htake : digitSpan (toDigits n.toNat ++ rest) =
          (toDigits n.toNat, rest) :=
        digitSpan_append _ _ (toDigits_isDigit _) hrest
      rw [htake]
      have hne : (toDigits n.toNat).isEmpty = false := by
        rw [hds]; rfl
      simp only [hne, Bool.false_eq_true, if_false, digitsToNat_toDigits]
      have : ((n.toNat : Int)) = n := Int.toNat_of_nonneg (by omega)
      rw [this]

theorem printPair_length_pos (p : String × JVal) : 1 ≤ (printPair p).length := by
  simp [printPair]

theorem printMembers_length_ge (r : Row) :
    r.length ≤ (printMembers r).length := by
  induction r with
  | nil => simp [printMembers]
  | cons p t ih =>
    cases t with
    | nil => simpa [printMembers] using printPair_length_pos p
    | cons q ps =>
      have h1 := printPair_length_pos p
      simp only [printMembers, List.length_append, List.length_cons] at *
      omega

/-- Parsing the printed members of a non-empty object consumes them all up
to the closing brace, with any sufficient fuel. -/
theorem parseMembers_printMembers (t : List (String × JVal)) :
    ∀ p : String × JVal, ∀ fuel, t.length < fuel → ∀ rest : List Char,
      parseMembers fuel (printMembers (p :: t) ++ '}' :: rest) =
        some (p :: t, rest) := by
  induction t with
  | nil =>
    intro p fuel hf rest
    cases fuel with
    | zero => omega
    | succ f =>
      have hshape : printMembers [p] ++ '}' :: rest =
          '"' :: (escapeStr p.1.data ++ '"' ::
            (':' :: (printVal p.2 ++ '}' :: rest))) := by
        simp [printMembers, printPair]
      rw [hshape, parseMembers.eq_def]
      simp only [parseStrBody_escape]
      rw [parseVal_printVal p.2 ('}' :: rest) (by simp [headNotDigit])]
      simp [string_mk_data]
  | cons q ps ih =>
    intro p fuel hf rest
    cases fuel with
    | zero => omega
    | succ f =>
      have hshape : printMembers (p :: q :: ps) ++ '}' :: rest =
          '"' :: (escapeStr p.1.data ++ '"' ::
            (':' :: (printVal p.2 ++
              ',' :: (printMembers (q :: ps) ++ '}' :: rest)))) := by
        simp [printMembers, printPair]
      rw [hshape, parseMembers.eq_def]
      simp only [parseStrBody_escape]
      rw [parseVal_printVal p.2 (',' :: (printMembers (q :: ps) ++ '}' :: rest))
        (by simp [headNotDigit])]
      have hf2 : ps.length < f := by
        simp only [List.length_cons] at hf
        omega
      simp [ih q f hf2 rest, string_mk_data]

theorem printMembers_cons_head (p : String × JVal) (t : List (String × JVal)) :
    ∃ z, printMembers (p :: t) = '"' :: z := by
  cases t with
  | nil => exact ⟨_, rfl⟩
  | cons q ps => exact ⟨_, rfl⟩

/-- Parsing a printed object consumes exactly the printed characters. -/
theorem parseObj_printRow (r : Row) (rest : List Char) :
    parseObj (printRow r ++ rest) = some (r, rest) := by
  cases r with
  | nil => simp [printRow, printMembers, parseObj]
  | cons p t =>
    obtain ⟨z, hz⟩ := printMembers_cons_head p t
    have hshape : printRow (p :: t) ++ rest =
        '{' :: ('"' :: (z ++ '}' :: rest)) := by
      simp [printRow, hz]
    have hY : '"' :: (z ++ '}' :: rest) =
        printMembers (p :: t) ++ '}' :: rest := by
      rw [hz]
      rfl
    have hfuel : t.length < (printMembers (p :: t) ++ '}' :: rest).length := by
      have := printMembers_length_ge (p :: t)
      simp only [List.length_cons] at this
      simp only [List.length_append, List.length_cons]
      omega
    rw [hshape]
    simp only [parseObj]
    split
    next rest2 heq => simp at heq
    next x hne =>
      rw [hY]
      exact parseMembers_printMembers t p _ hfuel rest

/-- Round trip for one row: parsing its printed line yields the row back. -/
theorem parseRow_printRow (r : Row) : parseRow (printRow r) = some r := by
  have h := parseObj_printRow r []
  rw [List.append_nil] at h
  simp [parseRow, h]

/-- Round trip for the whole line-delimited serialization. -/
theorem parseLines_to_json_lines (rows : List Row) :
    parseLines (to_json_lines rows) = some rows := by
  induction rows with
  | nil => rfl
  | cons r t ih =>
    simp [to_json_lines, parseLines, parseRow_printRow] at ih ⊢
    rw [ih]

theorem escapeChar_no_newline (c x : Char) (hx : x ∈ escapeChar c) :
    x ≠ '\n' := by
  by_cases h1 : c = '"'
  · subst h1
    intro hEq
    subst hEq
    revert hx
    decide
  by_cases h2 : c = '\\'
  · subst h2
    intro hEq
    subst hEq
    revert hx
    decide
  by_cases h3 : c = '\n'
  · subst h3
    intro hEq
    subst hEq
    revert hx
    decide
  by_cases h4 : c = '\r'
  · subst h4
    intro hEq
    subst hEq
    revert hx
    decide
  by_cases h5 : c = '\t'
  · subst h5
    intro hEq
    subst hEq
    revert hx
    decide
  rw [show escapeChar c = [c] from by simp [escapeChar, h1, h2, h3, h4, h5],
    List.mem_singleton] at hx
  subst hx
  exact h3

theorem escapeStr_no_newline (s : List Char) (x : Char)
    (hx : x ∈ escapeStr s) : x ≠ '\n' := by
  simp only [escapeStr, List.mem_flatMap] at hx
  obtain ⟨c, _, hc⟩ := hx
  exact escapeChar_no_newline c x hc

theorem printVal_no_newline (v : JVal) (x : Char) (hx : x ∈ printVal v) :
    x ≠ '\n' := by
  cases v with
  | null =>
    intro hEq
    subst hEq
    revert hx
    decide
  | bool b =>
    cases b <;> (intro hEq; subst hEq; revert hx; decide)
  | num n =>
    have hdig : ∀ c ∈ toDigits n.natAbs, c.isDigit = true := toDigits_isDigit _
    have hdig2 : ∀ c ∈ toDigits n.toNat, c.isDigit = true := toDigits_isDigit _
    simp only [printVal, intToChars] at hx
    by_cases hn : n < 0
    · rw [if_pos hn] at hx
      rcases List.mem_cons.mp hx with rfl | hx
      · decide
      · intro hEq
        subst hEq
        exact absurd (hdig _ hx) (by decide)
    · rw [if_neg hn] at hx
      intro hEq
      subst hEq
      exact absurd (hdig2 _ hx) (by decide)
  | str s =>
    simp only [printVal, List.mem_cons, List.mem_append,
      List.mem_singleton] at hx
    rcases hx with rfl | hx | rfl | hx
    · decide
    · exact escapeStr_no_newline s.data x hx
    · decide
    · exact absurd hx (List.not_mem_nil x)

theorem printPair_no_newline (p : String × JVal) (x : Char)
    (hx : x ∈ printPair p) : x ≠ '\n' := by
  simp only [printPair, List.mem_cons, List.mem_append] at hx
  rcases hx with rfl | hx | rfl | rfl | hx
  · decide
  · exact escapeStr_no_newline p.1.data x hx
  · decide
  · decide
  · exact printVal_no_newline p.2 x hx

theorem printMembers_no_newline (r : Row) (x : Char)
    (hx : x ∈ printMembers r) : x ≠ '\n' := by
  induction r with
  | nil => exact absurd hx (List.not_mem_nil x)
  | cons p t ih =>
    cases t with
    | nil => exact printPair_no_newline p x hx
    | cons q ps =>
      simp only [printMembers, List.mem_append, List.mem_cons] at hx
      rcases hx with hx | rfl | hx
      · exact printPair_no_newline p x hx
      · decide
      · exact ih (by simpa [printMembers] using hx)

/-- No printed line ever contains a raw newline: the line-delimited framing
cannot be broken by row contents. -/
theorem printRow_no_newline (r : Row) (x : Char) (hx : x ∈ printRow r) :
    x ≠ '\n' := by
  simp only [printRow, List.mem_cons, List.mem_append,
    List.mem_singleton] at hx
  rcases hx with rfl | hx | rfl | hx
  · decide
  · exact printMembers_no_newline r x hx
  · decide
  · exact absurd hx (List.not_mem_nil x)

/-! ## Result materialization (`run_evaluation`, lines 172–176)

The external evaluation capability's Result object exposes its rows
(`result.get("rows")`); the tabular structure and the optional file write
are performed by pandas, outside this repository. Modelled from the spec
(§4.4): the tabular structure indexes rows in order with columns the union
of all fields across rows (missing fields padded with null), and
`to_json(output_path, orient="records", lines=True)` writes the
line-delimited serialization to the given path, or writes no file at all
when the path is `None`. -/

/-- The Result object returned by the external `evaluate` call, exposing its
row collection. -/
structure RunResult where
  rows : List Row
  deriving DecidableEq

/-- Modelled from the spec (§4.4): the column list of the tabular structure,
the union of all field names across rows in first-seen order. -/
def columnsOf (rows : List Row) : List String :=
  rows.foldl
    (fun cols r => cols ++ (r.map Prod.fst).filter (fun k => !cols.contains k))
    []

/-- Modelled from the spec (§4.4): one tabular row, padded with `null` for
columns the record lacks. -/
def padRow (cols : List String) (r : Row) : Row :=
  cols.map (fun c => (c, (slookup c r).getD .null))

/-- Modelled from the spec (§4.4): `pandas.DataFrame(result.get("rows"))` as
the list of padded rows, one per input row, in input order. -/
def pd_DataFrame (rows : List Row) : List Row :=
  rows.map (padRow (columnsOf rows))

/-- Modelled from the spec (§4.4): the file-system effect of
`DataFrame.to_json(output_path, orient="records", lines=True)` — the list of
files written. With `output_path=None` pandas returns the serialized text
and writes nothing; with a path it writes the line-delimited serialization
there. -/
def to_json_effect (output_path : Option String)
    (text : List (List Char)) : List (String × List (List Char)) :=
  match output_path with
  | none => []
  | some p => [(p, text)]

/-- What `run_evaluation` hands back to its caller (line 176) together with
the files written on the way. -/
structure RunReturn where
  result : RunResult
  tabular_result : List Row
  files_written : List (String × List (List Char))
  deriving DecidableEq

/-- Embedding of the whole of `run_evaluation` (lines 89–176): resolve the
metrics (raising on an unknown name), call the external evaluation
capability `evaluateExt` on the resolved argument record, materialize the
tabular result and serialize it (writing a file only when `output_path` is
given), and return the Result object with the tabular structure. -/
def run_evaluation (evaluateExt : EvaluateCall → RunResult)
    (completion_func : TargetFunc) (evaluation_name : String)
    (evaluation_model_config : AzureOpenAIModelConfiguration)
    (evaluation_data_path : String) (metrics : List String)
    (output_path : Option String) : Except String RunReturn :=
  match run_evaluation_resolve completion_func evaluation_name
      evaluation_model_config evaluation_data_path metrics with
  | .error e => .error e
  | .ok call =>
    let result := evaluateExt call
    let tabular_result := pd_DataFrame result.rows
    .ok { result := result
          tabular_result := tabular_result
          files_written :=
            to_json_effect output_path (to_json_lines tabular_result) }

/-! ## Claim theorems -/

/-- C1: for every metric name of the registered closed set that appears in
the requested metrics list of a successfully resolved run, the binding
table handed to the external `evaluate` call for that metric is exactly the
table of spec §4.2 (rendered in the code's `${...}` reference syntax), and
its key list is exactly the argument list required by that metric's
evaluator — no missing and no extra keys. -/
theorem C1_binding_tables (completion_func : TargetFunc)
    (evaluation_name : String) (cfg : AzureOpenAIModelConfiguration)
    (data_path : String) (metrics : List String) (call : EvaluateCall)
    (h : run_evaluation_resolve completion_func evaluation_name cfg data_path
      metrics = .ok call)
    (m : String) (hm : m ∈ metrics) (hreg : m ∈ registeredMetricNames) :
    slookup m call.evaluator_config =
      some ((specBindingTable m).map (fun p => (p.1, p.2.render))) ∧
    ((specBindingTable m).map (fun p => (p.1, p.2.render))).map Prod.fst =
      requiredArgs m ∧
    (((specBindingTable m).map (fun p => (p.1, p.2.render))).map
      Prod.fst).Nodup := by
  unfold run_evaluation_resolve at h
  cases hres : resolveMetrics cfg metrics ⟨completion_func, [], []⟩ with
  | error e => rw [hres] at h; exact Except.noConfusion h
  | ok st =>
    rw [hres] at h
    simp only [Except.ok.injEq] at h
    subst h
    have hcfg := resolveMetrics_config_lookup cfg metrics _ st hres m
      (Or.inl hm)
    obtain ⟨hspec, hkeys, hnodup⟩ := evaluatorConfigOf_matches_spec m hreg
    exact ⟨hspec ▸ hcfg, hspec ▸ hkeys, hspec ▸ hnodup⟩

/-- C1 witness: a run requesting `["qa"]` resolves, and `qa` is bound to
question←data.chat_input, answer←target.reply, context←target.context,
ground_truth←data.ground_truth, with exactly the evaluator's argument
keys. -/
theorem C1_witness :
    slookup "qa" (EvaluateCall.mk .base "e"
      [("qa", .qa ⟨none, "k", "m"⟩)]
      [("qa",
        [("question", "$\x7bdata.chat_input\x7d"),
         ("answer", "$\x7btarget.reply\x7d"),
         ("context", "$\x7btarget.context\x7d"),
         ("ground_truth", "$\x7bdata.ground_truth\x7d")])]
      "d").evaluator_config =
      some ((specBindingTable "qa").map (fun p => (p.1, p.2.render))) ∧
    ((specBindingTable "qa").map (fun p => (p.1, p.2.render))).map Prod.fst =
      requiredArgs "qa" ∧
    (((specBindingTable "qa").map (fun p => (p.1, p.2.render))).map
      Prod.fst).Nodup :=
  C1_binding_tables .base "e" ⟨none, "k", "m"⟩ "d" ["qa"] _ rfl "qa"
    (by decide) (by decide)

/-- C2: requesting any metric name outside the registered set — including
`"chat"`, which the CLI parser accepts — makes `run_evaluation` raise an
unknown-metric `ValueError` during metric resolution, before the evaluation
run is started: no argument record for the external `evaluate` call is
produced and the whole run fails with that error for every external
evaluation capability (so the target callable is never invoked). -/
theorem C2_unknown_metric_rejected (f : TargetFunc) (name : String)
    (cfg : AzureOpenAIModelConfiguration) (path : String)
    (metrics : List String)
    (hbad : ∃ m ∈ metrics, m ∉ registeredMetricNames) :
    ("chat" ∈ metricsChoices ∧ "chat" ∉ registeredMetricNames) ∧
    ∃ e, run_evaluation_resolve f name cfg path metrics = .error e ∧
      ∀ (evaluateExt : EvaluateCall → RunResult) (out : Option String),
        run_evaluation evaluateExt f name cfg path metrics out = .error e := by
  refine ⟨⟨by decide, by decide⟩, ?_⟩
  obtain ⟨m, hm, hreg⟩ := hbad
  cases hres : resolveMetrics cfg metrics ⟨f, [], []⟩ with
  | ok st =>
    exact absurd (resolveMetrics_ok_registered cfg metrics _ st hres m hm) hreg
  | error e =>
    refine ⟨e, ?_, ?_⟩
    · unfold run_evaluation_resolve
      rw [hres]
    · intro evaluateExt out
      unfold run_evaluation run_evaluation_resolve
      rw [hres]

/-- C2 witness: the run requesting `["chat"]` is rejected with an
unknown-metric error before the external evaluation is invoked. -/
theorem C2_witness :
    ∃ e, run_evaluation_resolve .base "e" ⟨none, "k", "m"⟩ "d" ["chat"] =
        .error e ∧
      ∀ (evaluateExt : EvaluateCall → RunResult) (out : Option String),
        run_evaluation evaluateExt .base "e" ⟨none, "k", "m"⟩ "d" ["chat"]
          out = .error e :=
  (C2_unknown_metric_rejected .base "e" ⟨none, "k", "m"⟩ "d" ["chat"]
    ⟨"chat", by decide, by decide⟩).2

/-- C3 counterexample: when the completion function's return mapping already
contains a `"latency"` field (here value 0), the wrapper's output keeps that
value and does not hold the measured elapsed time (here 1): the Python
merge `{"latency": latency, **result}` lets the result override the
measurement, so no additional field holding the measured time is attached. -/
theorem C3_counterexample :
    slookup "latency" (latency_wrapper (.num 1) [("latency", .num 0)]) =
      some (.num 0) ∧
    slookup "latency" (latency_wrapper (.num 1) [("latency", .num 0)]) ≠
      some (.num 1) := by
  constructor
  · rfl
  · decide

/-- C3 (amended): for every completion callable and argument list on which
it returns a mapping `r` that does not already contain a `"latency"` field,
`latency_wrapper` returns a mapping containing every key of `r` with its
value unchanged plus exactly one additional field `"latency"` holding the
measured elapsed time; no existing field of `r` is altered or dropped.
(When `r` already has a `"latency"` field, `r`'s own value wins and the
measurement is discarded — see the counterexample.) -/
theorem C3_latency_wrapper_adds_field (t : JVal) (r : Row)
    (hnd : (r.map Prod.fst).Nodup) (hl : "latency" ∉ r.map Prod.fst) :
    latency_wrapper t r = ("latency", t) :: r ∧
    slookup "latency" (latency_wrapper t r) = some t ∧
    (∀ k, k ≠ "latency" → slookup k (latency_wrapper t r) = slookup k r) ∧
    (latency_wrapper t r).map Prod.fst = "latency" :: r.map Prod.fst := by
  have hdisj : ∀ k ∈ r.map Prod.fst,
      k ∉ (([("latency", t)] : Row).map Prod.fst) := by
    intro k hk
    simp only [List.map_cons, List.map_nil, List.mem_singleton]
    intro hcontra
    subst hcontra
    exact hl hk
  have key : latency_wrapper t r = ("latency", t) :: r := by
    unfold latency_wrapper
    rw [foldl_dictInsert_append r [("latency", t)] hnd hdisj]
    rfl
  refine ⟨key, ?_, ?_, ?_⟩
  · rw [key]
    simp [slookup]
  · intro k hk
    rw [key]
    have : ¬ "latency" = k := fun h => hk h.symm
    simp [slookup, this]
  · rw [key]
    simp

/-- C3 witness: wrapping a target that returns `{"reply": "Hello"}` with a
measured elapsed time of 2 yields a mapping whose `latency` field is that
time and whose `reply` field is unchanged. -/
theorem C3_witness :
    slookup "latency"
      (latency_wrapper (.num 2) [("reply", .str "Hello")]) = some (.num 2) ∧
    slookup "reply"
      (latency_wrapper (.num 2) [("reply", .str "Hello")]) =
      slookup "reply" ([("reply", .str "Hello")] : Row) := by
  have h := C3_latency_wrapper_adds_field (.num 2) [("reply", .str "Hello")]
    (by decide) (by decide)
  exact ⟨h.2.1, h.2.2.1 "reply" (by decide)⟩

/-- Observe the target argument of a (possibly failed) resolution. -/
def callTarget : Except String EvaluateCall → Option TargetFunc
  | .ok call => some call.target
  | .error _ => none

/-- C4 counterexample: the metrics list `["latency", "latency"]` contains
`"latency"`, yet the target handed to the external `evaluate` call is the
original completion function wrapped twice, not exactly once. -/
theorem C4_counterexample :
    callTarget (run_evaluation_resolve .base "e" ⟨none, "k", "m"⟩ "d"
      ["latency", "latency"]) =
      some (.latencyWrapped (.latencyWrapped .base)) ∧
    TargetFunc.latencyWrapped (.latencyWrapped .base) ≠
      TargetFunc.latencyWrapped .base := by
  constructor
  · rfl
  · decide

/-- C4 (amended): the target handed to the external `evaluate` call is the
original completion function wrapped with `latency_wrapper` once per
occurrence of `"latency"` in the requested metrics list — so exactly once
whenever `"latency"` occurs exactly once, regardless of its position
relative to other metric names, and unwrapped whenever `"latency"` is
absent; a list repeating `"latency"` wraps once per repetition. -/
theorem C4_latency_wrap_per_occurrence (f : TargetFunc) (name : String)
    (cfg : AzureOpenAIModelConfiguration) (path : String)
    (metrics : List String) (call : EvaluateCall)
    (h : run_evaluation_resolve f name cfg path metrics = .ok call) :
    call.target = wrapN (metrics.count "latency") f ∧
    (metrics.count "latency" = 0 ↔ "latency" ∉ metrics) := by
  constructor
  · unfold run_evaluation_resolve at h
    cases hres : resolveMetrics cfg metrics ⟨f, [], []⟩ with
    | error e => rw [hres] at h; exact Except.noConfusion h
    | ok st =>
      rw [hres] at h
      simp only [Except.ok.injEq] at h
      subst h
      exact resolveMetrics_completion cfg metrics _ st hres
  · exact List.count_eq_zero

/-- C4 witness: requesting `["latency", "coherence"]` wraps the target
exactly once. -/
theorem C4_witness :
    (EvaluateCall.mk (.latencyWrapped .base) "e"
      [("latency", .customField ⟨"latency"⟩),
       ("coherence", .coherence ⟨none, "k", "m"⟩)]
      [("latency", [("latency", "$\x7btarget.latency\x7d")]),
       ("coherence",
        [("question", "$\x7bdata.chat_input\x7d"),
         ("answer", "$\x7btarget.reply\x7d")])]
      "d").target =
      wrapN ((["latency", "coherence"] : List String).count "latency")
        .base :=
  (C4_latency_wrap_per_occurrence .base "e" ⟨none, "k", "m"⟩ "d"
    ["latency", "coherence"] _ rfl).1

/-- C5: serializing a Result object's row collection to the line-delimited
JSON record format — one JSON object per row, no leading or trailing
framing, no raw newline inside any line — and parsing the lines back yields,
in the same order, mappings field-for-field equal to the in-memory Result
rows. -/
theorem C5_round_trip (result : RunResult) :
    parseLines (to_json_lines result.rows) = some result.rows ∧
    (to_json_lines result.rows).length = result.rows.length ∧
    ∀ l ∈ to_json_lines result.rows, '\n' ∉ l := by
  refine ⟨parseLines_to_json_lines result.rows, by simp [to_json_lines], ?_⟩
  intro l hl hx
  simp only [to_json_lines, List.mem_map] at hl
  obtain ⟨r, _, rfl⟩ := hl
  exact printRow_no_newline r '\n' hx rfl

/-- C5 witness: a two-row result round-trips through the line-delimited
serialization unchanged. -/
theorem C5_witness :
    parseLines (to_json_lines (RunResult.mk
      [[("chat_input", .str "Hi"), ("reply", .str "Hello"),
        ("latency", .num 3)],
       [("chat_input", .str "Bye"), ("reply", .str "Later"),
        ("latency", .null)]]).rows) =
      some
      [[("chat_input", .str "Hi"), ("reply", .str "Hello"),
        ("latency", .num 3)],
       [("chat_input", .str "Bye"), ("reply", .str "Later"),
        ("latency", .null)]] :=
  (C5_round_trip (RunResult.mk
      [[("chat_input", .str "Hi"), ("reply", .str "Hello"),
        ("latency", .num 3)],
       [("chat_input", .str "Bye"), ("reply", .str "Later"),
        ("latency", .null)]])).1

/-- C6: for every run size ≥ 0, the tabular structure built from the Result
object's row collection and its line-delimited serialization list the
result rows in exactly the input row order: same length, the i-th tabular
row is the (column-padded) i-th result row, the i-th serialized line is its
printing, and parsing the i-th line returns it — the materialization steps
neither reorder, drop nor duplicate rows. -/
theorem C6_row_order (result : RunResult) (i : Nat) :
    (pd_DataFrame result.rows).length = result.rows.length ∧
    (pd_DataFrame result.rows)[i]? =
      (result.rows[i]?).map (padRow (columnsOf result.rows)) ∧
    (to_json_lines (pd_DataFrame result.rows))[i]? =
      (result.rows[i]?).map
        (fun r => printRow (padRow (columnsOf result.rows) r)) ∧
    ((to_json_lines (pd_DataFrame result.rows))[i]?).map parseRow =
      (result.rows[i]?).map
        (fun r => some (padRow (columnsOf result.rows) r)) := by
  refine ⟨by simp [pd_DataFrame], ?_, ?_, ?_⟩
  · simp [pd_DataFrame]
  · simp only [to_json_lines, pd_DataFrame, List.getElem?_map,
      Option.map_map]
    cases result.rows[i]? <;> rfl
  · cases h : result.rows[i]? with
    | none => simp [to_json_lines, pd_DataFrame, h]
    | some r =>
      simp [to_json_lines, pd_DataFrame, h, parseRow_printRow]

/-- C7: whenever the `AZURE_OPENAI_KEY` environment variable is present,
`get_model_config` builds the model configuration from that key and emits
the warning that token-based authentication is preferred; otherwise it
builds the configuration from the AAD bearer token. The API key takes
precedence whenever present. -/
theorem C7_model_config_precedence (env : List (String × String))
    (aad_token evaluation_model : String) :
    (∀ key, slookup "AZURE_OPENAI_KEY" env = some key →
      (get_model_config env aad_token evaluation_model).1.api_key = key ∧
      (get_model_config env aad_token evaluation_model).2 =
        [LogEvent.warning keyAuthWarning]) ∧
    (slookup "AZURE_OPENAI_KEY" env = none →
      (get_model_config env aad_token evaluation_model).1.api_key =
        aad_token ∧
      (get_model_config env aad_token evaluation_model).2 =
        [LogEvent.info aadAuthInfo]) := by
  constructor
  · intro key hk
    simp [get_model_config, hk]
  · intro hk
    simp [get_model_config, hk]

/-- C7 witness: with the key set in the environment, the configuration uses
it and the key-auth warning is emitted even though an AAD token is
available. -/
theorem C7_witness :
    (get_model_config [("AZURE_OPENAI_KEY", "k1")] "aadtok" "gpt").1.api_key
      = "k1" ∧
    (get_model_config [("AZURE_OPENAI_KEY", "k1")] "aadtok" "gpt").2 =
      [LogEvent.warning keyAuthWarning] :=
  (C7_model_config_precedence [("AZURE_OPENAI_KEY", "k1")] "aadtok" "gpt").1
    "k1" rfl

/-- C8: on every successful run, the in-memory tabular result is
constructed from the Result object's rows and returned together with the
Result object; with no output path supplied no file is written, and with a
path supplied exactly the line-delimited JSON file at that path is
written. -/
theorem C8_output_optional (evaluateExt : EvaluateCall → RunResult)
    (f : TargetFunc) (name : String) (cfg : AzureOpenAIModelConfiguration)
    (path : String) (metrics : List String) (out : Option String)
    (ret : RunReturn)
    (h : run_evaluation evaluateExt f name cfg path metrics out = .ok ret) :
    ret.tabular_result = pd_DataFrame ret.result.rows ∧
    (out = none → ret.files_written = []) ∧
    (∀ p, out = some p →
      ret.files_written =
        [(p, to_json_lines (pd_DataFrame ret.result.rows))]) := by
  unfold run_evaluation at h
  cases hres : run_evaluation_resolve f name cfg path metrics with
  | error e => rw [hres] at h; exact Except.noConfusion h
  | ok call =>
    rw [hres] at h
    simp only [Except.ok.injEq] at h
    subst h
    refine ⟨rfl, ?_, ?_⟩
    · intro hout
      subst hout
      rfl
    · intro p hout
      subst hout
      rfl

/-- C8 witness: a successful run with no output path writes no file yet
still returns the tabular result with the Result object. -/
theorem C8_witness :
    (RunReturn.mk ⟨[]⟩ [] []).files_written = [] ∧
    (RunReturn.mk ⟨[]⟩ [] []).tabular_result =
      pd_DataFrame (RunReturn.mk ⟨[]⟩ [] []).result.rows := by
  have h := C8_output_optional (fun _ => ⟨[]⟩) .base "e" ⟨none, "k", "m"⟩
    "d" [] none ⟨⟨[]⟩, [], []⟩ rfl
  exact ⟨h.2.1 rfl, h.1⟩

/-- C9: for every metric name `m`, value `v` and extra keyword arguments,
`CustomFieldEvaluator(m)` called with `value=v` returns exactly the
one-entry mapping `{m: v}`; in particular the `latency` metric registers
the evaluator `CustomFieldEvaluator("latency")` with the binding
latency←target.latency, so the per-row latency score is the target
output's `latency` field passed through unchanged. -/
theorem C9_custom_field_evaluator (m : String) (v : JVal)
    (kwargs : List (String × JVal))
    (cfg : AzureOpenAIModelConfiguration) :
    CustomFieldEvaluator.call ⟨m⟩ v kwargs = [(m, v)] ∧
    evaluatorOf cfg "latency" = .customField ⟨"latency"⟩ ∧
    evaluatorConfigOf "latency" =
      [("latency", "$\x7btarget.latency\x7d")] := by
  exact ⟨rfl, rfl, rfl⟩

/-- C10: the empty requested-metrics list is not rejected: resolution
succeeds and the external `evaluate` call is made with an empty evaluator
set, an empty binding configuration and the original target callable
unwrapped — no non-emptiness precondition is enforced at this interface. -/
theorem C10_empty_metrics_accepted (evaluateExt : EvaluateCall → RunResult)
    (f : TargetFunc) (name : String) (cfg : AzureOpenAIModelConfiguration)
    (path : String) (out : Option String) :
    run_evaluation_resolve f name cfg path [] =
      .ok (EvaluateCall.mk f name [] [] path) ∧
    run_evaluation evaluateExt f name cfg path [] out =
      .ok (RunReturn.mk (evaluateExt (EvaluateCall.mk f name [] [] path))
        (pd_DataFrame (evaluateExt (EvaluateCall.mk f name [] [] path)).rows)
        (to_json_effect out (to_json_lines (pd_DataFrame
          (evaluateExt (EvaluateCall.mk f name [] [] path)).rows)))) := by
  exact ⟨rfl, rfl⟩
